import Mathlib

/-!
Verification of the session-state core of the camofox-mcp repository:
the in-memory tab registry (`tabManager`) and the on-disk profile store
(`profiles`), shallowly embedded in Lean 4.

Timestamps are modelled as `Int` (JavaScript `Date.now()` arithmetic),
the JS `Map` as an association list whose operations mirror `Map.get`,
`Map.set`, `Map.delete` and `Map.size`, and the file system as an explicit
state record.  Fallible operations return `Except AppError`.
-/

/-- Model of the `AppError` class: only the machine-readable code matters
to the properties below; the human-readable message is elided. -/
structure AppError where
  code : String
deriving DecidableEq, Repr

/-- Model of the `TabInfo` interface from `types.ts`. -/
structure TabInfo where
  tabId : String
  url : String
  createdAt : String
  lastActivity : Int
  userId : String
  sessionKey : String
  visitedUrls : List String
  toolCalls : Nat
  refsCount : Nat
deriving DecidableEq, Repr

/-! A JS `Map<string, α>` (and, later, a directory of files keyed by path),
modelled as an association list in insertion order. -/

namespace JsMap

variable {α : Type}

/-- `map.get(k)`. -/
def get (m : List (String × α)) (k : String) : Option α :=
  match m with
  | [] => none
  | (k', v) :: rest => if k' = k then some v else get rest k

/-- `map.has(k)` (derived). -/
def containsKey (m : List (String × α)) (k : String) : Bool :=
  match m with
  | [] => false
  | (k', _) :: rest => if k' = k then true else containsKey rest k

/-- `map.set(k, v)`: replaces in place when the key is present,
appends otherwise (JS `Map` insertion-order semantics). -/
def set (m : List (String × α)) (k : String) (v : α) : List (String × α) :=
  match m with
  | [] => [(k, v)]
  | (k', v') :: rest =>
      if k' = k then (k, v) :: rest else (k', v') :: set rest k v

/-- `map.delete(k)`. -/
def del (m : List (String × α)) (k : String) : List (String × α) :=
  match m with
  | [] => []
  | (k', v') :: rest => if k' = k then rest else (k', v') :: del rest k

/-- `map.size`. -/
def size (m : List (String × α)) : Nat :=
  match m with
  | [] => 0
  | _ :: rest => size rest + 1

/-- The keys of the map, in insertion order. -/
def keysOf (m : List (String × α)) : List String :=
  match m with
  | [] => []
  | (k, _) :: rest => k :: keysOf rest

end JsMap

/-- The tab registry: the module-level `tabs = new Map<string, TabInfo>()`. -/
abbrev Registry : Type := List (String × TabInfo)

/-- `trackTab` from `tabManager.ts`: fails with `MAX_TABS_EXCEEDED` when the
registry already holds `maxTabs` entries; otherwise inserts the record with
`lastActivity` stamped to now. `maxTabs` models the `MAX_TABS` configuration
value and `now` models `Date.now()`. -/
def trackTab (maxTabs : Nat) (now : Int) (m : Registry) (tab : TabInfo) :
    (Except AppError Unit) × Registry :=
  if JsMap.size m ≥ maxTabs then
    (.error ⟨"MAX_TABS_EXCEEDED"⟩, m)
  else
    (.ok (), JsMap.set m tab.tabId { tab with lastActivity := now })

/-- A sequence of `trackTab` calls, one per record, stopping (as a thrown
`AppError` would) at the first failure. -/
def trackAll (maxTabs : Nat) (now : Int) (m : Registry) :
    List TabInfo → (Except AppError Unit) × Registry
  | [] => (.ok (), m)
  | t :: ts =>
      match trackTab maxTabs now m t with
      | (.error e, m') => (.error e, m')
      | (.ok _, m') => trackAll maxTabs now m' ts

/-- `removeTrackedTab` from `tabManager.ts`. -/
def removeTrackedTab (m : Registry) (tabId : String) : Registry :=
  JsMap.del m tabId

/-- `getTrackedTab` from `tabManager.ts`: throws `TAB_NOT_FOUND` when the id
is not tracked; otherwise stamps `lastActivity = Date.now()` on the record and
returns it.  The JS function mutates the record held by the map, so the model
returns the refreshed record together with the updated registry; on error the
registry is returned unchanged. -/
def getTrackedTab (now : Int) (m : Registry) (tabId : String) :
    (Except AppError TabInfo) × Registry :=
  match JsMap.get m tabId with
  | none => (.error ⟨"TAB_NOT_FOUND"⟩, m)
  | some tab =>
      let tab' := { tab with lastActivity := now }
      (.ok tab', JsMap.set m tabId tab')

/-- JS `array.slice(-limit)` for a non-negative `limit`: keeps the last
`limit` elements, except that `slice(-0) = slice(0)` returns the whole
array. -/
def sliceNeg (limit : Nat) (xs : List String) : List String :=
  if limit = 0 then xs else xs.drop (xs.length - limit)

/-- `updateTabUrl` from `tabManager.ts`: looks the tab up (refreshing
activity), sets `url`, pushes `url` onto `visitedUrls` unless
`visitedUrls.includes(url)`, then truncates with `slice(-limit)` when the
length exceeds the limit.  `limit` models `VISITED_URLS_LIMIT`. -/
def updateTabUrl (limit : Nat) (now : Int) (m : Registry) (tabId url : String) :
    (Except AppError Unit) × Registry :=
  match getTrackedTab now m tabId with
  | (.error e, m') => (.error e, m')
  | (.ok tab, m') =>
      let visited1 :=
        if tab.visitedUrls.contains url then tab.visitedUrls
        else tab.visitedUrls ++ [url]
      let visited2 :=
        if visited1.length > limit then sliceNeg limit visited1 else visited1
      (.ok (), JsMap.set m' tabId { tab with url := url, visitedUrls := visited2 })

/-- Outcome of one invocation of the injected `closeTab` callback wrapped in
`withTimeout(...).catch(() => undefined)`: it may fulfil, reject, or time
out; the sweep swallows all three. -/
inductive CallbackOutcome
  | success
  | failure
  | timeout
deriving DecidableEq, Repr

/-- Observable events of one sweep run, in program order: the registry
delete and the invocation of the injected close callback (with the outcome
the environment gives it). -/
inductive SweepEvent
  | delete (tabId : String)
  | close (tabId userId : String) (outcome : CallbackOutcome)
deriving DecidableEq, Repr

/-- Whether `now - tab.lastActivity > TAB_TTL_MS` holds for an entry. -/
def expired (ttl : Nat) (now : Int) (p : String × TabInfo) : Bool :=
  now - p.2.lastActivity > (ttl : Int)

/-- One iteration of the sweep's `for` loop over `tabs.entries()`: an
expired entry is deleted from the registry and its close callback is
invoked (events recorded in order). `cb` gives the outcome the environment
assigns to each callback invocation. -/
def sweepStep (ttl : Nat) (now : Int) (cb : String → String → CallbackOutcome)
    (acc : Registry × List SweepEvent) (p : String × TabInfo) :
    Registry × List SweepEvent :=
  if expired ttl now p then
    (JsMap.del acc.1 p.1,
     acc.2 ++ [.delete p.1, .close p.2.tabId p.2.userId (cb p.2.tabId p.2.userId)])
  else acc

/-- The `sweep` closure from `setupCleanup` in `tabManager.ts`: a no-op when
the configured TTL is zero; otherwise iterates over all entries, deleting
each expired one before invoking the injected close callback for it.
Returns the resulting registry and the ordered list of observable events. -/
def sweep (ttl : Nat) (now : Int) (cb : String → String → CallbackOutcome)
    (m : Registry) : Registry × List SweepEvent :=
  if ttl ≤ 0 then (m, [])
  else m.foldl (sweepStep ttl now cb) (m, [])

/-! Basic lemmas about the JS `Map` model. -/

namespace JsMap

variable {α : Type}

theorem get_set_self (m : List (String × α)) (k : String) (v : α) :
    get (set m k v) k = some v := by
  induction m with
  | nil => simp [set, get]
  | cons p rest ih =>
      obtain ⟨k', v'⟩ := p
      by_cases h : k' = k
      · simp [set, get, h]
      · simp [set, get, h, ih]

theorem get_set_other (m : List (String × α)) (k k'' : String) (v : α)
    (h : k'' ≠ k) : get (set m k v) k'' = get m k'' := by
  induction m with
  | nil => simp [set, get, Ne.symm h]
  | cons p rest ih =>
      obtain ⟨k', v'⟩ := p
      by_cases hk : k' = k
      · subst hk
        simp [set, get, Ne.symm h]
      · by_cases hk2 : k' = k''
        · simp [set, get, hk, hk2, h]
        · simp [set, get, hk, hk2, ih]

theorem containsKey_set (m : List (String × α)) (k k'' : String) (v : α) :
    containsKey (set m k v) k'' =
      (if k'' = k then true else containsKey m k'') := by
  induction m with
  | nil =>
      by_cases h : k'' = k
      · simp [set, containsKey, h]
      · simp [set, containsKey, h, Ne.symm h]
  | cons p rest ih =>
      obtain ⟨k', v'⟩ := p
      by_cases hk : k' = k
      · subst hk
        by_cases h : k'' = k'
        · simp [set, containsKey, h]
        · simp [set, containsKey, h, Ne.symm h]
      · by_cases hk2 : k' = k''
        · subst hk2
          simp [set, containsKey, hk]
        · simp [set, containsKey, hk, hk2, ih]

theorem get_eq_none_of_not_containsKey (m : List (String × α)) (k : String)
    (h : containsKey m k = false) : get m k = none := by
  induction m with
  | nil => simp [get]
  | cons p rest ih =>
      obtain ⟨k', v'⟩ := p
      by_cases hk : k' = k
      · simp [containsKey, hk] at h
      · simp [containsKey, hk] at h
        simp [get, hk, ih h]

theorem containsKey_of_get_eq_some (m : List (String × α)) (k : String) (v : α)
    (h : get m k = some v) : containsKey m k = true := by
  induction m with
  | nil => simp [get] at h
  | cons p rest ih =>
      obtain ⟨k', v'⟩ := p
      by_cases hk : k' = k
      · simp [containsKey, hk]
      · simp [get, hk] at h
        simp [containsKey, hk, ih h]

theorem size_set_of_not_containsKey (m : List (String × α)) (k : String) (v : α)
    (h : containsKey m k = false) : size (set m k v) = size m + 1 := by
  induction m with
  | nil => simp [set, size]
  | cons p rest ih =>
      obtain ⟨k', v'⟩ := p
      by_cases hk : k' = k
      · simp [containsKey, hk] at h
      · simp [containsKey, hk] at h
        simp [set, size, hk, ih h]

theorem size_set_of_containsKey (m : List (String × α)) (k : String) (v : α)
    (h : containsKey m k = true) : size (set m k v) = size m := by
  induction m with
  | nil => simp [containsKey] at h
  | cons p rest ih =>
      obtain ⟨k', v'⟩ := p
      by_cases hk : k' = k
      · simp [set, size, hk]
      · simp [containsKey, hk] at h
        simp [set, size, hk, ih h]

theorem size_del_of_containsKey (m : List (String × α)) (k : String)
    (h : containsKey m k = true) : size (del m k) + 1 = size m := by
  induction m with
  | nil => simp [containsKey] at h
  | cons p rest ih =>
      obtain ⟨k', v'⟩ := p
      by_cases hk : k' = k
      · simp [del, size, hk]
      · simp [containsKey, hk] at h
        simp [del, size, hk, ih h]

theorem size_pos_of_containsKey (m : List (String × α)) (k : String)
    (h : containsKey m k = true) : 1 ≤ size m := by
  cases m with
  | nil => simp [containsKey] at h
  | cons p rest => simp [size]

end JsMap

/-- Registering a list of fresh, distinct records succeeds while capacity
allows, grows the size accordingly, stamps each inserted record, and leaves
unrelated keys alone. -/
theorem trackAll_ok (maxTabs : Nat) (now : Int) (l : List TabInfo) :
    ∀ m : Registry,
      JsMap.size m + l.length ≤ maxTabs →
      (∀ t ∈ l, JsMap.containsKey m t.tabId = false) →
      (l.map TabInfo.tabId).Nodup →
      ∃ m', trackAll maxTabs now m l = (.ok (), m') ∧
        JsMap.size m' = JsMap.size m + l.length ∧
        (∀ t ∈ l, JsMap.get m' t.tabId = some { t with lastActivity := now }) ∧
        (∀ k, (∀ t ∈ l, t.tabId ≠ k) → JsMap.get m' k = JsMap.get m k) := by
  induction l with
  | nil =>
      intro m _ _ _
      exact ⟨m, rfl, by simp, by simp, fun k _ => rfl⟩
  | cons t ts ih =>
      intro m hcap hfresh hnodup
      have hlt : JsMap.size m < maxTabs := by
        simp only [List.length_cons] at hcap; omega
      have hstep : trackTab maxTabs now m t =
          (.ok (), JsMap.set m t.tabId { t with lastActivity := now }) := by
        unfold trackTab
        rw [if_neg (by omega)]
      rw [List.map_cons, List.nodup_cons] at hnodup
      obtain ⟨hhead, htail⟩ := hnodup
      have hfreshm : JsMap.containsKey m t.tabId = false := hfresh t (by simp)
      have hsize1 :
          JsMap.size (JsMap.set m t.tabId { t with lastActivity := now }) =
            JsMap.size m + 1 :=
        JsMap.size_set_of_not_containsKey _ _ _ hfreshm
      have hne : ∀ t2 ∈ ts, t2.tabId ≠ t.tabId := by
        intro t2 ht2 he
        exact hhead (he ▸ List.mem_map_of_mem _ ht2)
      obtain ⟨m', hall, hsz, hget, hframe⟩ :=
        ih (JsMap.set m t.tabId { t with lastActivity := now })
          (by simp only [List.length_cons] at hcap; omega)
          (by
            intro t2 ht2
            rw [JsMap.containsKey_set, if_neg (hne t2 ht2)]
            exact hfresh t2 (List.mem_cons_of_mem _ ht2))
          htail
      refine ⟨m', ?_, by simp only [List.length_cons]; omega, ?_, ?_⟩
      · simp only [trackAll, hstep]
        exact hall
      · intro t2 ht2
        rcases List.mem_cons.mp ht2 with he | hmem
        · subst he
          rw [hframe t2.tabId (fun t3 ht3 => hne t3 ht3)]
          exact JsMap.get_set_self _ _ _
        · exact hget t2 hmem
      · intro k hk
        rw [hframe k (fun t3 ht3 => hk t3 (List.mem_cons_of_mem _ ht3))]
        exact JsMap.get_set_other _ _ _ _ (Ne.symm (hk t (by simp)))

/-- C3: starting from an empty registry with configured maximum `M`,
registering `M` sessions with distinct ids succeeds and each record is
inserted with `lastActivity` stamped; one further registration fails with
`MAX_TABS_EXCEEDED` and leaves the registry unchanged; after removing one
tracked session a registration succeeds again; and any registration below
capacity inserts the record with `lastActivity` set to now. -/
theorem trackTab_capacity_invariant (M : Nat) (now : Int) (l : List TabInfo)
    (hlen : l.length = M) (hnodup : (l.map TabInfo.tabId).Nodup) :
    ∃ m : Registry, trackAll M now [] l = (.ok (), m) ∧ JsMap.size m = M ∧
      (∀ t ∈ l, JsMap.get m t.tabId = some { t with lastActivity := now }) ∧
      (∀ (now' : Int) (t : TabInfo),
        trackTab M now' m t = (.error ⟨"MAX_TABS_EXCEEDED"⟩, m)) ∧
      (∀ k, JsMap.containsKey m k = true →
        ∀ (now' : Int) (t : TabInfo),
          (trackTab M now' (removeTrackedTab m k) t).1 = .ok ()) ∧
      (∀ (m' : Registry) (now' : Int) (t : TabInfo), JsMap.size m' < M →
        trackTab M now' m' t =
          (.ok (), JsMap.set m' t.tabId { t with lastActivity := now' }) ∧
        JsMap.get (JsMap.set m' t.tabId { t with lastActivity := now' }) t.tabId =
          some { t with lastActivity := now' }) := by
  obtain ⟨m, hall, hsz, hget, _⟩ :=
    trackAll_ok M now l [] (by simp [JsMap.size, hlen]) (by simp [JsMap.containsKey]) hnodup
  have hszm : JsMap.size m = M := by simpa [JsMap.size, hlen] using hsz
  refine ⟨m, hall, hszm, hget, ?_, ?_, ?_⟩
  · intro now' t
    unfold trackTab
    rw [if_pos (by omega)]
  · intro k hk now' t
    have h1 : JsMap.size (JsMap.del m k) + 1 = JsMap.size m :=
      JsMap.size_del_of_containsKey m k hk
    unfold removeTrackedTab trackTab
    rw [if_neg (by omega)]
  · intro m' now' t hlt
    constructor
    · unfold trackTab
      rw [if_neg (by omega)]
    · exact JsMap.get_set_self _ _ _

/-- Demo records for concrete witnesses. -/
def demoTabA : TabInfo :=
  ⟨"a", "https://a", "t0", 0, "u", "s", [], 0, 0⟩

def demoTabB : TabInfo :=
  ⟨"b", "https://b", "t0", 0, "u", "s", [], 0, 0⟩

theorem trackTab_capacity_invariant_witness :
    ([demoTabA, demoTabB].length = 2 ∧
      (([demoTabA, demoTabB]).map TabInfo.tabId).Nodup) ∧
    ∃ m : Registry,
      trackAll 2 7 [] [demoTabA, demoTabB] = (.ok (), m) ∧ JsMap.size m = 2 := by
  obtain ⟨m, h1, h2, -, -, -, -⟩ :=
    trackTab_capacity_invariant 2 7 [demoTabA, demoTabB] (by decide) (by decide)
  exact ⟨⟨by decide, by decide⟩, m, h1, h2⟩

/-- C8: a lookup of an untracked id fails with `TAB_NOT_FOUND` leaving the
registry unchanged (no default entry is fabricated); a lookup of a tracked
id stamps `lastActivity = now` and returns the record, so across two
successive lookups at non-decreasing clock readings the stamp never moves
backward. -/
theorem getTrackedTab_spec (m : Registry) (tabId : String) (now₁ now₂ : Int) :
    (JsMap.get m tabId = none →
      getTrackedTab now₁ m tabId = (.error ⟨"TAB_NOT_FOUND"⟩, m)) ∧
    (∀ tab, JsMap.get m tabId = some tab →
      getTrackedTab now₁ m tabId =
        (.ok { tab with lastActivity := now₁ },
         JsMap.set m tabId { tab with lastActivity := now₁ }) ∧
      (getTrackedTab now₂ (getTrackedTab now₁ m tabId).2 tabId).1 =
        .ok { tab with lastActivity := now₂ } ∧
      (now₁ ≤ now₂ →
        ∃ t₁ t₂, (getTrackedTab now₁ m tabId).1 = .ok t₁ ∧
          (getTrackedTab now₂ (getTrackedTab now₁ m tabId).2 tabId).1 = .ok t₂ ∧
          t₁.lastActivity ≤ t₂.lastActivity)) := by
  constructor
  · intro h
    simp [getTrackedTab, h]
  · intro tab htab
    have h1 : getTrackedTab now₁ m tabId =
        (.ok { tab with lastActivity := now₁ },
         JsMap.set m tabId { tab with lastActivity := now₁ }) := by
      simp [getTrackedTab, htab]
    have h2 : (getTrackedTab now₂ (getTrackedTab now₁ m tabId).2 tabId).1 =
        .ok { tab with lastActivity := now₂ } := by
      rw [h1]
      simp [getTrackedTab, JsMap.get_set_self]
    refine ⟨h1, h2, fun hle => ?_⟩
    exact ⟨{ tab with lastActivity := now₁ }, { tab with lastActivity := now₂ },
      by rw [h1], h2, hle⟩

theorem getTrackedTab_spec_witness :
    JsMap.get ([("a", demoTabA)] : Registry) "a" = some demoTabA ∧
    getTrackedTab 3 ([("a", demoTabA)] : Registry) "a" =
      (.ok { demoTabA with lastActivity := 3 },
       JsMap.set [("a", demoTabA)] "a" { demoTabA with lastActivity := 3 }) := by
  refine ⟨by decide, ?_⟩
  exact ((getTrackedTab_spec [("a", demoTabA)] "a" 3 5).2 demoTabA (by decide)).1

/-- C10: `trackTab` checks capacity before looking at the key, so
re-registering an already-tracked id at capacity still fails with
`MAX_TABS_EXCEEDED` (and changes nothing); below capacity it silently
replaces the existing record in place (same size, no duplicate), stamping
`lastActivity = now`. -/
theorem trackTab_replace_spec (M : Nat) (now : Int) (m : Registry)
    (tab : TabInfo) (h : JsMap.containsKey m tab.tabId = true) :
    (JsMap.size m ≥ M →
      trackTab M now m tab = (.error ⟨"MAX_TABS_EXCEEDED"⟩, m)) ∧
    (JsMap.size m < M →
      trackTab M now m tab =
        (.ok (), JsMap.set m tab.tabId { tab with lastActivity := now }) ∧
      JsMap.size (JsMap.set m tab.tabId { tab with lastActivity := now }) =
        JsMap.size m ∧
      JsMap.get (JsMap.set m tab.tabId { tab with lastActivity := now })
        tab.tabId = some { tab with lastActivity := now } ∧
      ∀ k, k ≠ tab.tabId →
        JsMap.get (JsMap.set m tab.tabId { tab with lastActivity := now }) k =
          JsMap.get m k) := by
  constructor
  · intro hge
    unfold trackTab
    rw [if_pos hge]
  · intro hlt
    refine ⟨?_, JsMap.size_set_of_containsKey _ _ _ h,
      JsMap.get_set_self _ _ _, fun k hk => JsMap.get_set_other _ _ _ _ hk⟩
    unfold trackTab
    rw [if_neg (by omega)]

theorem trackTab_replace_spec_witness :
    JsMap.containsKey ([("a", demoTabA)] : Registry) demoTabA.tabId = true ∧
    trackTab 1 9 [("a", demoTabA)] demoTabA =
      (.error ⟨"MAX_TABS_EXCEEDED"⟩, [("a", demoTabA)]) := by
  refine ⟨by decide, ?_⟩
  exact (trackTab_replace_spec 1 9 [("a", demoTabA)] demoTabA (by decide)).1
    (by decide)

/-- The history produced by the code's duplicate guard: `url` is appended
exactly when it is not already contained anywhere in the visited list
(JS `visitedUrls.includes(url)`). -/
def appendedUrls (visited : List String) (url : String) : List String :=
  if url ∈ visited then visited else visited ++ [url]

/-- C1 counterexample: with history `["a", "b"]`, updating to `"a"` does
not append even though `"a"` is not the last entry — the code's guard is
`includes` (membership anywhere), not "last entry". -/
theorem updateTabUrl_last_entry_counterexample :
    (["a", "b"].getLast? ≠ some "a") ∧
    (updateTabUrl 50 5 [("t", ⟨"t", "b", "c", 0, "u", "s", ["a", "b"], 0, 0⟩)]
        "t" "a").1 = .ok () ∧
    JsMap.get (updateTabUrl 50 5
        [("t", ⟨"t", "b", "c", 0, "u", "s", ["a", "b"], 0, 0⟩)] "t" "a").2 "t" =
      some ⟨"t", "a", "c", 5, "u", "s", ["a", "b"], 0, 0⟩ ∧
    JsMap.get (updateTabUrl 50 5
        [("t", ⟨"t", "b", "c", 0, "u", "s", ["a", "b"], 0, 0⟩)] "t" "a").2 "t" ≠
      some ⟨"t", "a", "c", 5, "u", "s", ["a", "b", "a"], 0, 0⟩ := by
  exact ⟨by decide, rfl, rfl, by decide⟩

/-- C1 amended: for a tracked session, `updateTabUrl` stamps activity, sets
the current url, appends the url exactly when it is not already contained
anywhere in `visitedUrls`, and then truncates from the front so the length
never exceeds the configured cap (oldest entries dropped first). -/
theorem updateTabUrl_amended (limit : Nat) (now : Int) (m : Registry)
    (tabId url : String) (tab : TabInfo)
    (hget : JsMap.get m tabId = some tab) (hlim : 1 ≤ limit) :
    (updateTabUrl limit now m tabId url).1 = .ok () ∧
    JsMap.get (updateTabUrl limit now m tabId url).2 tabId =
      some { tab with
              url := url,
              lastActivity := now,
              visitedUrls := (appendedUrls tab.visitedUrls url).drop
                ((appendedUrls tab.visitedUrls url).length - limit) } ∧
    (∀ k, k ≠ tabId →
      JsMap.get (updateTabUrl limit now m tabId url).2 k = JsMap.get m k) ∧
    ((appendedUrls tab.visitedUrls url).drop
        ((appendedUrls tab.visitedUrls url).length - limit)).length =
      min (appendedUrls tab.visitedUrls url).length limit ∧
    (appendedUrls tab.visitedUrls url).drop
        ((appendedUrls tab.visitedUrls url).length - limit) <:+
      appendedUrls tab.visitedUrls url ∧
    ((appendedUrls tab.visitedUrls url).drop
        ((appendedUrls tab.visitedUrls url).length - limit)).length ≤ limit := by
  have hstep : getTrackedTab now m tabId =
      (.ok { tab with lastActivity := now },
       JsMap.set m tabId { tab with lastActivity := now }) := by
    simp [getTrackedTab, hget]
  have hrun : updateTabUrl limit now m tabId url =
      (.ok (),
       JsMap.set (JsMap.set m tabId { tab with lastActivity := now }) tabId
         { tab with
            url := url,
            lastActivity := now,
            visitedUrls := (appendedUrls tab.visitedUrls url).drop
              ((appendedUrls tab.visitedUrls url).length - limit) }) := by
    have hne0 : ¬ limit = 0 := by omega
    by_cases hmem : url ∈ tab.visitedUrls
    · have hc : tab.visitedUrls.contains url = true := List.elem_iff.mpr hmem
      by_cases hlen : tab.visitedUrls.length > limit
      · simp [updateTabUrl, hstep, appendedUrls, hmem, hc, hlen, sliceNeg, hne0]
      · simp [updateTabUrl, hstep, appendedUrls, hmem, hc, hlen,
          Nat.sub_eq_zero_of_le (Nat.le_of_not_lt hlen)]
    · have hc : tab.visitedUrls.contains url = false := by
        simp [List.elem_iff, hmem]
      by_cases hlen : tab.visitedUrls.length + 1 > limit
      · have hlen2 : limit < tab.visitedUrls.length + 1 := by omega
        simp [updateTabUrl, hstep, appendedUrls, hmem, hc, sliceNeg, hne0, hlen2]
      · have hlen2 : ¬ limit < tab.visitedUrls.length + 1 := by omega
        have hz : tab.visitedUrls.length + 1 - limit = 0 := by omega
        simp [updateTabUrl, hstep, appendedUrls, hmem, hc, hlen2, hz]
  have hlendrop :
      ((appendedUrls tab.visitedUrls url).drop
        ((appendedUrls tab.visitedUrls url).length - limit)).length =
      min (appendedUrls tab.visitedUrls url).length limit := by
    rw [List.length_drop]
    omega
  refine ⟨by rw [hrun], ?_, ?_, hlendrop, List.drop_suffix _ _, by omega⟩
  · rw [hrun]
    exact JsMap.get_set_self _ _ _
  · intro k hk
    rw [hrun]
    simp only []
    rw [JsMap.get_set_other _ _ _ _ hk, JsMap.get_set_other _ _ _ _ hk]

theorem updateTabUrl_amended_witness :
    JsMap.get ([("t", ⟨"t", "x", "c", 0, "u", "s", ["a", "b"], 0, 0⟩)] : Registry)
        "t" = some ⟨"t", "x", "c", 0, "u", "s", ["a", "b"], 0, 0⟩ ∧ 1 ≤ 2 ∧
    JsMap.get (updateTabUrl 2 5
        [("t", ⟨"t", "x", "c", 0, "u", "s", ["a", "b"], 0, 0⟩)] "t" "c").2 "t" =
      some ⟨"t", "c", "c", 5, "u", "s", ["b", "c"], 0, 0⟩ := by
  refine ⟨by decide, by decide, ?_⟩
  have h := (updateTabUrl_amended 2 5
    [("t", ⟨"t", "x", "c", 0, "u", "s", ["a", "b"], 0, 0⟩)] "t" "c"
    ⟨"t", "x", "c", 0, "u", "s", ["a", "b"], 0, 0⟩ (by decide) (by decide)).2.1
  exact h

/-! Characterization of the sweep. -/

/-- Folding `tabs.delete` over a list of keys. -/
def delKeys (r : Registry) (ks : List String) : Registry :=
  ks.foldl JsMap.del r

/-- The two observable events one evicted entry produces, in order:
its registry delete, then its close-callback invocation. -/
def evictBlock (cb : String → String → CallbackOutcome)
    (p : String × TabInfo) : List SweepEvent :=
  [.delete p.1, .close p.2.tabId p.2.userId (cb p.2.tabId p.2.userId)]

/-- Recognizes a close-callback invocation for a given session id. -/
def isCloseFor (t : String) : SweepEvent → Bool
  | .close t' _ _ => t' = t
  | _ => false

namespace JsMap

theorem keysOf_eq_map (m : List (String × α)) : keysOf m = m.map Prod.fst := by
  induction m with
  | nil => rfl
  | cons p rest ih => cases p; simp [keysOf, ih]

theorem get_eq_none_iff (m : List (String × α)) (k : String) :
    get m k = none ↔ k ∉ keysOf m := by
  induction m with
  | nil => simp [get, keysOf]
  | cons p rest ih =>
      obtain ⟨k', v'⟩ := p
      by_cases h : k' = k
      · simp [get, keysOf, h]
      · have h2 : ¬ k = k' := fun he => h he.symm
        simp [get, keysOf, h, h2, ih]

theorem del_eq_filter_of_nodup (m : List (String × α)) (k : String)
    (h : (keysOf m).Nodup) :
    del m k = m.filter (fun p => decide (p.1 ≠ k)) := by
  induction m with
  | nil => rfl
  | cons p rest ih =>
      obtain ⟨k', v'⟩ := p
      rw [keysOf, List.nodup_cons] at h
      by_cases hk : k' = k
      · subst hk
        have hall : rest.filter (fun p => decide (p.1 ≠ k')) = rest := by
          apply List.filter_eq_self.mpr
          intro p hp
          simp only [decide_eq_true_eq]
          intro he
          exact h.1 (he ▸ (by
            rw [keysOf_eq_map]
            exact List.mem_map_of_mem Prod.fst hp))
        rw [show del ((k', v') :: rest) k' = rest from by simp [del]]
        rw [List.filter_cons_of_neg (by simp)]
        exact hall.symm
      · simp [del, hk, ih h.2]

theorem nodup_keysOf_filter (m : List (String × α)) (q : String × α → Bool)
    (h : (keysOf m).Nodup) : (keysOf (m.filter q)).Nodup := by
  rw [keysOf_eq_map] at h ⊢
  exact List.Nodup.sublist (List.Sublist.map Prod.fst (List.filter_sublist m)) h

theorem delKeys_eq_filter (ks : List String) :
    ∀ m : Registry, (keysOf (α := TabInfo) m).Nodup →
      delKeys m ks = m.filter (fun p => decide (p.1 ∉ ks)) := by
  induction ks with
  | nil =>
      intro m _
      simp [delKeys]
  | cons k ks ih =>
      intro m h
      have h1 : delKeys m (k :: ks) = delKeys (del m k) ks := rfl
      rw [h1, ih (del m k) (by
        rw [del_eq_filter_of_nodup m k h]
        exact nodup_keysOf_filter m _ h),
        del_eq_filter_of_nodup m k h, List.filter_filter]
      apply List.filter_congr
      intro p _
      by_cases h1 : p.1 = k <;> by_cases h2 : p.1 ∈ ks <;>
        simp [h1, h2]

end JsMap

/-- The sweep loop is a fold of deletions over the expired entries, with
the event trace laid out block by block. -/
theorem foldl_sweepStep_char (ttl : Nat) (now : Int)
    (cb : String → String → CallbackOutcome) :
    ∀ (l : List (String × TabInfo)) (r : Registry) (evs : List SweepEvent),
      l.foldl (sweepStep ttl now cb) (r, evs) =
        (delKeys r ((l.filter (expired ttl now)).map Prod.fst),
         evs ++ (l.filter (expired ttl now)).flatMap (evictBlock cb)) := by
  intro l
  induction l with
  | nil => intro r evs; simp [delKeys]
  | cons p l ih =>
      intro r evs
      rw [List.foldl_cons]
      by_cases hp : expired ttl now p = true
      · have hs : sweepStep ttl now cb (r, evs) p =
            (JsMap.del r p.1, evs ++ evictBlock cb p) := by
          simp [sweepStep, hp, evictBlock]
        rw [hs, ih]
        rw [List.filter_cons_of_pos hp, List.flatMap_cons, List.map_cons]
        have hdk : delKeys r (p.1 :: (l.filter (expired ttl now)).map Prod.fst) =
            delKeys (JsMap.del r p.1) ((l.filter (expired ttl now)).map Prod.fst) := rfl
        rw [hdk, List.append_assoc]
      · have hs : sweepStep ttl now cb (r, evs) p = (r, evs) := by
          simp [sweepStep, hp]
        rw [hs, ih, List.filter_cons_of_neg (by simpa using hp)]

/-- A `flatMap` where exactly one element of a duplicate-free list
contributes collapses to that element's block. -/
theorem flatMap_eq_of_unique {α β : Type} (h : α → List β) :
    ∀ (l : List α) (p : α), l.Nodup → p ∈ l →
      (∀ q ∈ l, q ≠ p → h q = []) → l.flatMap h = h p := by
  intro l
  induction l with
  | nil => intro p _ hp; simp at hp
  | cons a l' ih =>
      intro p hnd hp huniq
      rw [List.nodup_cons] at hnd
      rcases List.mem_cons.mp hp with he | hmem
      · subst he
        have hnil : l'.flatMap h = [] := by
          apply List.flatMap_eq_nil_iff.mpr
          intro q hq
          exact huniq q (List.mem_cons_of_mem _ hq)
            (fun he2 => hnd.1 (he2 ▸ hq))
        rw [List.flatMap_cons, hnil, List.append_nil]
      · have hne : a ≠ p := fun he2 => hnd.1 (he2 ▸ hmem)
        have ha : h a = [] := huniq a (by simp) hne
        rw [List.flatMap_cons, ha, List.nil_append]
        exact ih p hnd.2 hmem fun q hq => huniq q (List.mem_cons_of_mem _ hq)

/-- C7: with TTL zero the sweep is a no-op; with positive TTL one sweep run
keeps exactly the sessions within the TTL (each untouched), removes every
session whose idle time exceeds the TTL, produces for each evicted session
its registry delete strictly before its single close-callback invocation,
invokes the callback exactly once per evicted session, and the resulting
registry does not depend on the callback outcomes (failures and timeouts
are swallowed; the entry stays removed regardless). -/
theorem sweep_spec (ttl : Nat) (now : Int)
    (cb : String → String → CallbackOutcome) (m : Registry)
    (hnodup : (JsMap.keysOf m).Nodup)
    (hid : ∀ p ∈ m, p.2.tabId = p.1) :
    sweep 0 now cb m = (m, []) ∧
    (0 < ttl →
      (sweep ttl now cb m).1 = m.filter (fun p => !(expired ttl now p)) ∧
      (sweep ttl now cb m).2 =
        (m.filter (expired ttl now)).flatMap (evictBlock cb) ∧
      (∀ p ∈ m, expired ttl now p = true →
        JsMap.get (sweep ttl now cb m).1 p.1 = none) ∧
      (∀ p ∈ m, expired ttl now p = false → p ∈ (sweep ttl now cb m).1) ∧
      (∀ p ∈ m, expired ttl now p = true →
        (sweep ttl now cb m).2.filter (isCloseFor p.2.tabId) =
          [SweepEvent.close p.2.tabId p.2.userId (cb p.2.tabId p.2.userId)]) ∧
      (∀ p ∈ m, expired ttl now p = true →
        ∃ l₁ l₂, (sweep ttl now cb m).2 =
          l₁ ++ SweepEvent.delete p.1 ::
            SweepEvent.close p.2.tabId p.2.userId (cb p.2.tabId p.2.userId) ::
              l₂)) ∧
    (∀ cb' : String → String → CallbackOutcome,
      (sweep ttl now cb m).1 = (sweep ttl now cb' m).1) := by
  have hinj : ∀ x ∈ m, ∀ y ∈ m, x.1 = y.1 → x = y := by
    intro x hx y hy he
    rw [JsMap.keysOf_eq_map] at hnodup
    exact List.inj_on_of_nodup_map hnodup hx hy he
  refine ⟨by simp [sweep], fun httl => ?_, fun cb' => ?_⟩
  · have hne : ¬ ttl ≤ 0 := by omega
    have hchar : sweep ttl now cb m =
        (delKeys m ((m.filter (expired ttl now)).map Prod.fst),
         (m.filter (expired ttl now)).flatMap (evictBlock cb)) := by
      unfold sweep
      rw [if_neg hne, foldl_sweepStep_char]
      simp
    have hmemkeys : ∀ p ∈ m,
        (p.1 ∈ (m.filter (expired ttl now)).map Prod.fst ↔
          expired ttl now p = true) := by
      intro p hp
      constructor
      · intro hmem
        obtain ⟨q, hq, hq1⟩ := List.mem_map.mp hmem
        have hq' := List.mem_filter.mp hq
        exact (hinj q hq'.1 p hp hq1) ▸ hq'.2
      · intro hexp
        exact List.mem_map_of_mem Prod.fst (List.mem_filter.mpr ⟨hp, hexp⟩)
    have hreg : (sweep ttl now cb m).1 =
        m.filter (fun p => !(expired ttl now p)) := by
      rw [hchar]
      rw [show (delKeys m ((m.filter (expired ttl now)).map Prod.fst),
          (m.filter (expired ttl now)).flatMap (evictBlock cb)).1 =
          delKeys m ((m.filter (expired ttl now)).map Prod.fst) from rfl]
      rw [JsMap.delKeys_eq_filter _ m hnodup]
      apply List.filter_congr
      intro p hp
      by_cases hexp : expired ttl now p = true
      · simp [hexp, (hmemkeys p hp).mpr hexp]
      · have hnm : p.1 ∉ (m.filter (expired ttl now)).map Prod.fst :=
          fun hmem => hexp ((hmemkeys p hp).mp hmem)
        simp only [Bool.not_eq_true] at hexp
        simp [hexp, hnm]
    have hevents : (sweep ttl now cb m).2 =
        (m.filter (expired ttl now)).flatMap (evictBlock cb) := by
      rw [hchar]
    have hnodupm : m.Nodup := by
      rw [JsMap.keysOf_eq_map] at hnodup
      exact List.Nodup.of_map Prod.fst hnodup
    have hnodupf : (m.filter (expired ttl now)).Nodup :=
      List.Nodup.sublist (List.filter_sublist m) hnodupm
    refine ⟨hreg, hevents, ?_, ?_, ?_, ?_⟩
    · intro p hp hexp
      rw [hreg]
      apply (JsMap.get_eq_none_iff _ _).mpr
      intro hmem
      rw [JsMap.keysOf_eq_map] at hmem
      obtain ⟨q, hq, hq1⟩ := List.mem_map.mp hmem
      have hq' := List.mem_filter.mp hq
      have hqp : q = p := hinj q hq'.1 p hp hq1
      rw [hqp] at hq'
      simp [hexp] at hq'
    · intro p hp hexp
      rw [hreg]
      exact List.mem_filter.mpr ⟨hp, by simp [hexp]⟩
    · intro p hp hexp
      rw [hevents, List.filter_flatMap]
      have hpf : p ∈ m.filter (expired ttl now) :=
        List.mem_filter.mpr ⟨hp, hexp⟩
      rw [flatMap_eq_of_unique _ (m.filter (expired ttl now)) p hnodupf hpf ?_]
      · simp [evictBlock, isCloseFor]
      · intro q hq hqp
        have hq' := List.mem_filter.mp hq
        have hne2 : q.2.tabId ≠ p.2.tabId := by
          rw [hid q hq'.1, hid p hp]
          intro he
          exact hqp (hinj q hq'.1 p hp he)
        simp [evictBlock, isCloseFor, hne2]
    · intro p hp hexp
      rw [hevents]
      have hpf : p ∈ m.filter (expired ttl now) :=
        List.mem_filter.mpr ⟨hp, hexp⟩
      obtain ⟨s, t, hst⟩ := List.mem_iff_append.mp hpf
      rw [hst, List.flatMap_append, List.flatMap_cons]
      exact ⟨s.flatMap (evictBlock cb), t.flatMap (evictBlock cb), by
        simp [evictBlock]⟩
  · by_cases httl : ttl ≤ 0
    · simp [sweep, httl]
    · unfold sweep
      rw [if_neg httl, if_neg httl, foldl_sweepStep_char, foldl_sweepStep_char]

/-- Concrete registry for the sweep witness: one idle session, one active. -/
def demoSweepReg : Registry :=
  [("e", ⟨"e", "https://e", "t0", 0, "ue", "s", [], 0, 0⟩),
   ("f", ⟨"f", "https://f", "t0", 95, "uf", "s", [], 0, 0⟩)]

def demoCb : String → String → CallbackOutcome := fun _ _ => .failure

theorem sweep_spec_witness :
    (JsMap.keysOf demoSweepReg).Nodup ∧
    (sweep 10 100 demoCb demoSweepReg).1 =
      [("f", ⟨"f", "https://f", "t0", 95, "uf", "s", [], 0, 0⟩)] ∧
    (sweep 10 100 demoCb demoSweepReg).2 =
      [.delete "e", .close "e" "ue" .failure] := by
  have h := sweep_spec 10 100 demoCb demoSweepReg (by decide) (by decide)
  have h2 := h.2.1 (by norm_num)
  refine ⟨by decide, ?_, ?_⟩
  · rw [h2.1]; decide
  · rw [h2.2.1]; decide

/-! The profile store (`profiles.ts`). -/

/-- A JSON value, as produced by `JSON.parse`.  Numbers are modelled as
integers: every number the store itself writes (`version`, `cookieCount`)
is an integer. -/
inductive Json where
  | null
  | bool (b : Bool)
  | num (n : Int)
  | str (s : String)
  | arr (elems : List Json)
  | obj (fields : List (String × Json))

/-- `z.string()` on a required key. -/
def isStringField (fields : List (String × Json)) (k : String) : Bool :=
  match JsMap.get fields k with
  | some (.str _) => true
  | _ => false

/-- `z.number().optional()`. -/
def optNumField (fields : List (String × Json)) (k : String) : Bool :=
  match JsMap.get fields k with
  | none => true
  | some (.num _) => true
  | _ => false

/-- `z.boolean().optional()`. -/
def optBoolField (fields : List (String × Json)) (k : String) : Bool :=
  match JsMap.get fields k with
  | none => true
  | some (.bool _) => true
  | _ => false

/-- `z.string().optional()`. -/
def optStrField (fields : List (String × Json)) (k : String) : Bool :=
  match JsMap.get fields k with
  | none => true
  | some (.str _) => true
  | _ => false

/-- `ProfileCookieSchema` (`z.object({...}).passthrough()`): the shape check;
`passthrough` keeps the value itself unchanged, so cookies are carried as
raw JSON values. -/
def isCookieJson : Json → Bool
  | .obj fields =>
      isStringField fields "name" && isStringField fields "value" &&
      isStringField fields "domain" && isStringField fields "path" &&
      optNumField fields "expires" && optBoolField fields "httpOnly" &&
      optBoolField fields "secure" && optStrField fields "sameSite"
  | _ => false

/-- Model of the `ProfileMetadata` interface from `types.ts`.  For the two
`optional().nullable()` fields, `none` means the key is absent, `some none`
that it is JSON `null`, and `some (some s)` a string. -/
structure ProfileMetadata where
  createdAt : String
  updatedAt : String
  lastUrl : Option (Option String)
  description : Option (Option String)
  cookieCount : Int

/-- Model of the `Profile` interface from `types.ts`. -/
structure Profile where
  version : Int
  profileId : String
  userId : String
  cookies : List Json
  metadata : ProfileMetadata

/-- `z.string().optional().nullable()`. -/
def parseOptNullStr (v : Option Json) : Option (Option (Option String)) :=
  match v with
  | none => some none
  | some .null => some (some none)
  | some (.str s) => some (some (some s))
  | some _ => none

/-- `ProfileMetadataSchema.safeParse` (strip mode: unknown keys dropped). -/
def parseMetadata : Json → Option ProfileMetadata
  | .obj fields =>
      match JsMap.get fields "createdAt", JsMap.get fields "updatedAt",
          parseOptNullStr (JsMap.get fields "lastUrl"),
          parseOptNullStr (JsMap.get fields "description"),
          JsMap.get fields "cookieCount" with
      | some (.str c), some (.str u), some l, some d, some (.num n) =>
          some ⟨c, u, l, d, n⟩
      | _, _, _, _, _ => none
  | _ => none

/-- `ProfileSchema.safeParse`: `version` must be the literal `1`, the
cookies must all pass the cookie schema, the metadata must parse. -/
def parseProfile : Json → Option Profile
  | .obj fields =>
      match JsMap.get fields "version", JsMap.get fields "profileId",
          JsMap.get fields "userId", JsMap.get fields "cookies",
          (JsMap.get fields "metadata").bind parseMetadata with
      | some (.num 1), some (.str pid), some (.str uid), some (.arr cs),
          some md =>
          if cs.all isCookieJson then some ⟨1, pid, uid, cs, md⟩ else none
      | _, _, _, _, _ => none
  | _ => none

/-- `JSON.stringify` of an optional/nullable string field: an absent value
(`undefined`) produces no key at all, `null` and strings are kept. -/
def optNullStrToFields (k : String) (v : Option (Option String)) :
    List (String × Json) :=
  match v with
  | none => []
  | some none => [(k, .null)]
  | some (some s) => [(k, .str s)]

/-- Serialization of the metadata object literal from `saveProfile`. -/
def metadataToJson (md : ProfileMetadata) : Json :=
  .obj ([("createdAt", .str md.createdAt), ("updatedAt", .str md.updatedAt)] ++
    optNullStrToFields "lastUrl" md.lastUrl ++
    optNullStrToFields "description" md.description ++
    [("cookieCount", .num md.cookieCount)])

/-- Serialization of the profile object literal from `saveProfile`. -/
def profileToJson (p : Profile) : Json :=
  .obj [("version", .num p.version), ("profileId", .str p.profileId),
        ("userId", .str p.userId), ("cookies", .arr p.cookies),
        ("metadata", metadataToJson p.metadata)]

/-- On-disk content of one file: either text `JSON.parse` rejects, or a
parsed JSON value (serialization round-trips through `JSON.stringify`). -/
inductive FileData where
  | invalid
  | json (j : Json)

/-- The file-system state the store touches: the set of ensured profile
directories and the files keyed by path. -/
structure FS where
  dirs : List String
  files : List (String × FileData)

/-- `readFile` (absence modelling `ENOENT`). -/
def fsRead (fs : FS) (path : String) : Option FileData :=
  JsMap.get fs.files path

/-- `writeFile`. -/
def fsWriteFile (fs : FS) (path : String) (d : FileData) : FS :=
  { fs with files := JsMap.set fs.files path d }

/-- `rename(src, dst)`: atomically moves the file, replacing `dst`. -/
def fsRename (fs : FS) (src dst : String) : FS :=
  match JsMap.get fs.files src with
  | none => fs
  | some d => { fs with files := JsMap.set (JsMap.del fs.files src) dst d }

/-- `ensureProfilesDir`: `mkdir -p` + `chmod 0700` — creates the directory
when absent; file contents are never touched. -/
def ensureProfilesDir (fs : FS) (dir : String) : FS :=
  if dir ∈ fs.dirs then fs else { fs with dirs := fs.dirs ++ [dir] }

/-- `[a-zA-Z0-9]`. -/
def isAsciiAlphaNum (c : Char) : Bool :=
  (('a' ≤ c && c ≤ 'z') || ('A' ≤ c && c ≤ 'Z') || ('0' ≤ c && c ≤ '9'))

/-- The regex's first character class `[a-zA-Z0-9_]`. -/
def isIdStart (c : Char) : Bool :=
  isAsciiAlphaNum c || c = '_'

/-- The regex's continuation class `[a-zA-Z0-9._-]`. -/
def isIdCont (c : Char) : Bool :=
  isAsciiAlphaNum c || c = '.' || c = '-' || c = '_'

/-- `PROFILE_ID_REGEX.test(id)` for `/^[a-zA-Z0-9_][a-zA-Z0-9._-]{0,63}$/`. -/
def profileIdTest (s : String) : Bool :=
  match s.data with
  | [] => false
  | c :: rest => isIdStart c && decide (rest.length ≤ 63) && rest.all isIdCont

/-- `validateProfileId` from `profiles.ts`. -/
def validateProfileId (s : String) : Except AppError Unit :=
  if profileIdTest s then .ok () else .error ⟨"VALIDATION_ERROR"⟩

/-- `profilePath`: `join(dir, profileId + ".json")`. -/
def profilePath (dir profileId : String) : String :=
  dir ++ "/" ++ profileId ++ ".json"

/-- `loadProfile` from `profiles.ts`: validates the id; a missing file is
`PROFILE_NOT_FOUND`; unparseable content, schema-invalid content, and an
embedded id mismatching the requested one are `PROFILE_ERROR`. -/
def loadProfile (fs : FS) (dir profileId : String) : Except AppError Profile :=
  match validateProfileId profileId with
  | .error e => .error e
  | .ok () =>
      match fsRead fs (profilePath dir profileId) with
      | none => .error ⟨"PROFILE_NOT_FOUND"⟩
      | some .invalid => .error ⟨"PROFILE_ERROR"⟩
      | some (.json j) =>
          match parseProfile j with
          | none => .error ⟨"PROFILE_ERROR"⟩
          | some p =>
              if p.profileId ≠ profileId then .error ⟨"PROFILE_ERROR"⟩
              else .ok p

/-- The profile object literal built by `saveProfile`. -/
def builtProfile (profileId userId : String) (cookies : List Json)
    (createdAt now : String) (description lastUrl : Option String) : Profile :=
  ⟨1, profileId, userId, cookies,
   ⟨createdAt, now, lastUrl.map some, description.map some,
    (cookies.length : Int)⟩⟩

/-- `saveProfile` from `profiles.ts`: validates the id, ensures the
directory, validates the cookies (`PROFILE_ERROR` on failure), loads any
existing profile to carry `createdAt` forward (any load failure means "new
profile"), then writes a temp file and renames it over the final path.
`now` models `new Date().toISOString()`; the per-path mutex is implicit in
this sequential model. -/
def saveProfile (now : String) (fs : FS) (dir profileId userId : String)
    (cookies : List Json) (description lastUrl : Option String) :
    (Except AppError Profile) × FS :=
  match validateProfileId profileId with
  | .error e => (.error e, fs)
  | .ok () =>
      let fs1 := ensureProfilesDir fs dir
      if ¬ cookies.all isCookieJson then
        (.error ⟨"PROFILE_ERROR"⟩, fs1)
      else
        let filePath := profilePath dir profileId
        let createdAt :=
          match loadProfile fs1 dir profileId with
          | .ok existing => existing.metadata.createdAt
          | .error _ => now
        let profile := builtProfile profileId userId cookies createdAt now
          description lastUrl
        let fs2 := fsWriteFile fs1 (filePath ++ ".tmp")
          (.json (profileToJson profile))
        let fs3 := fsRename fs2 (filePath ++ ".tmp") filePath
        (.ok profile, fs3)

/-! Profile-store lemmas. -/

theorem parseMetadata_metadataToJson (md : ProfileMetadata) :
    parseMetadata (metadataToJson md) = some md := by
  obtain ⟨c, u, l, d, n⟩ := md
  rcases l with _ | (_ | s) <;> rcases d with _ | (_ | t) <;> rfl

theorem parseProfile_profileToJson (p : Profile) (hv : p.version = 1)
    (hc : p.cookies.all isCookieJson = true) :
    parseProfile (profileToJson p) = some p := by
  obtain ⟨v, pid, uid, cs, md⟩ := p
  simp only at hv
  subst hv
  simp only [profileToJson, parseProfile, JsMap.get, Option.bind,
    parseMetadata_metadataToJson]
  simp only at hc
  simp [parseMetadata_metadataToJson, hc]

theorem loadProfile_ensure (fs : FS) (dir2 dir profileId : String) :
    loadProfile (ensureProfilesDir fs dir2) dir profileId =
      loadProfile fs dir profileId := by
  unfold ensureProfilesDir
  split <;> rfl

theorem loadProfile_after_write (fs : FS) (dir profileId : String)
    (p : Profile) (hid : profileIdTest profileId = true)
    (hp : parseProfile (profileToJson p) = some p)
    (hpid : p.profileId = profileId) :
    loadProfile
      (fsRename
        (fsWriteFile fs (profilePath dir profileId ++ ".tmp")
          (.json (profileToJson p)))
        (profilePath dir profileId ++ ".tmp") (profilePath dir profileId))
      dir profileId = .ok p := by
  have hread : fsRead
      (fsRename
        (fsWriteFile fs (profilePath dir profileId ++ ".tmp")
          (.json (profileToJson p)))
        (profilePath dir profileId ++ ".tmp") (profilePath dir profileId))
      (profilePath dir profileId) = some (.json (profileToJson p)) := by
    simp [fsRename, fsWriteFile, fsRead, JsMap.get_set_self]
  simp [loadProfile, validateProfileId, hid, hread, hp, hpid]

/-- One successful save: the returned record is the built profile (with
`createdAt` carried from a loadable prior record, else stamped `now`), and
an immediately following load returns exactly that record. -/
theorem saveProfile_spec (now : String) (fs : FS)
    (dir profileId userId : String) (cookies : List Json)
    (description lastUrl : Option String)
    (hid : profileIdTest profileId = true)
    (hc : cookies.all isCookieJson = true) :
    ∃ createdAt : String,
      (∀ e, loadProfile fs dir profileId = .ok e →
        createdAt = e.metadata.createdAt) ∧
      ((∃ err, loadProfile fs dir profileId = .error err) → createdAt = now) ∧
      (saveProfile now fs dir profileId userId cookies description lastUrl).1 =
        .ok (builtProfile profileId userId cookies createdAt now description
          lastUrl) ∧
      loadProfile
        (saveProfile now fs dir profileId userId cookies description
          lastUrl).2 dir profileId =
        .ok (builtProfile profileId userId cookies createdAt now description
          lastUrl) := by
  have hpid : (builtProfile profileId userId cookies now now description
      lastUrl).profileId = profileId := rfl
  cases hL : loadProfile fs dir profileId with
  | error err =>
      refine ⟨now, ?_, fun _ => rfl, ?_, ?_⟩
      · intro e he
        exact absurd he (by simp)
      all_goals {
        have hL' : loadProfile (ensureProfilesDir fs dir) dir profileId =
            .error err := by rw [loadProfile_ensure]; exact hL
        have hrun : saveProfile now fs dir profileId userId cookies
            description lastUrl =
            (.ok (builtProfile profileId userId cookies now now description
              lastUrl),
             fsRename
               (fsWriteFile (ensureProfilesDir fs dir)
                 (profilePath dir profileId ++ ".tmp")
                 (.json (profileToJson (builtProfile profileId userId cookies
                   now now description lastUrl))))
               (profilePath dir profileId ++ ".tmp")
               (profilePath dir profileId)) := by
          simp [saveProfile, validateProfileId, hid, hc, hL']
        rw [hrun]
        all_goals
          exact loadProfile_after_write _ dir profileId _ hid
            (parseProfile_profileToJson _ rfl hc) rfl
      }
  | ok existing =>
      refine ⟨existing.metadata.createdAt, ?_, ?_, ?_, ?_⟩
      · intro e he
        cases he
        rfl
      · intro ⟨err, herr⟩
        exact absurd herr (by simp)
      all_goals {
        have hL' : loadProfile (ensureProfilesDir fs dir) dir profileId =
            .ok existing := by rw [loadProfile_ensure]; exact hL
        have hrun : saveProfile now fs dir profileId userId cookies
            description lastUrl =
            (.ok (builtProfile profileId userId cookies
              existing.metadata.createdAt now description lastUrl),
             fsRename
               (fsWriteFile (ensureProfilesDir fs dir)
                 (profilePath dir profileId ++ ".tmp")
                 (.json (profileToJson (builtProfile profileId userId cookies
                   existing.metadata.createdAt now description lastUrl))))
               (profilePath dir profileId ++ ".tmp")
               (profilePath dir profileId)) := by
          simp [saveProfile, validateProfileId, hid, hc, hL']
        rw [hrun]
        all_goals
          exact loadProfile_after_write _ dir profileId _ hid
            (parseProfile_profileToJson _ rfl hc) rfl
      }

/-- C4: for a valid id and schema-valid cookies, a save followed by a load
(with no interleaving writes) returns a profile whose cookies equal the
saved cookies, whose `cookieCount` is the cookie-list length, and whose
`profileId` is the requested id. -/
theorem profile_round_trip (now : String) (fs : FS)
    (dir profileId userId : String) (cookies : List Json)
    (description lastUrl : Option String)
    (hid : profileIdTest profileId = true)
    (hc : cookies.all isCookieJson = true) :
    ∃ p : Profile,
      (saveProfile now fs dir profileId userId cookies description
        lastUrl).1 = .ok p ∧
      loadProfile (saveProfile now fs dir profileId userId cookies
        description lastUrl).2 dir profileId = .ok p ∧
      p.cookies = cookies ∧
      p.metadata.cookieCount = (cookies.length : Int) ∧
      p.profileId = profileId := by
  obtain ⟨cAt, -, -, h1, h2⟩ :=
    saveProfile_spec now fs dir profileId userId cookies description lastUrl
      hid hc
  exact ⟨_, h1, h2, rfl, rfl, rfl⟩

/-- Concrete cookie for the profile-store witnesses. -/
def demoCookie : Json :=
  .obj [("name", .str "n"), ("value", .str "v"),
        ("domain", .str "example.com"), ("path", .str "/")]

theorem profile_round_trip_witness :
    profileIdTest "p" = true ∧ ([demoCookie].all isCookieJson) = true ∧
    ∃ p : Profile,
      (saveProfile "T1" ⟨[], []⟩ "d" "p" "u" [demoCookie] none none).1 =
        .ok p ∧
      loadProfile (saveProfile "T1" ⟨[], []⟩ "d" "p" "u" [demoCookie] none
        none).2 "d" "p" = .ok p ∧
      p.cookies = [demoCookie] := by
  refine ⟨rfl, rfl, ?_⟩
  obtain ⟨p, h1, h2, h3, -, -⟩ :=
    profile_round_trip "T1" ⟨[], []⟩ "d" "p" "u" [demoCookie] none none rfl rfl
  exact ⟨p, h1, h2, h3⟩

/-- C5: saving the same id twice keeps the first save's `createdAt`,
refreshes `updatedAt` to the second save's time, recomputes `cookieCount`
from the second cookie list, and takes every other field from the second
save's arguments. -/
theorem createdAt_preservation (t₁ t₂ : String) (fs : FS)
    (dir profileId u₁ u₂ : String) (c₁ c₂ : List Json)
    (d₁ d₂ l₁ l₂ : Option String)
    (hid : profileIdTest profileId = true)
    (hc₁ : c₁.all isCookieJson = true) (hc₂ : c₂.all isCookieJson = true) :
    ∃ p₁ p₂ : Profile,
      (saveProfile t₁ fs dir profileId u₁ c₁ d₁ l₁).1 = .ok p₁ ∧
      (saveProfile t₂ (saveProfile t₁ fs dir profileId u₁ c₁ d₁ l₁).2 dir
        profileId u₂ c₂ d₂ l₂).1 = .ok p₂ ∧
      p₂.metadata.createdAt = p₁.metadata.createdAt ∧
      p₂.metadata.updatedAt = t₂ ∧
      p₂.metadata.cookieCount = (c₂.length : Int) ∧
      p₂.version = 1 ∧
      p₂.profileId = profileId ∧ p₂.userId = u₂ ∧ p₂.cookies = c₂ ∧
      p₂.metadata.lastUrl = Option.map some l₂ ∧
      p₂.metadata.description = Option.map some d₂ := by
  obtain ⟨cAt₁, -, -, h1, hload₁⟩ :=
    saveProfile_spec t₁ fs dir profileId u₁ c₁ d₁ l₁ hid hc₁
  obtain ⟨cAt₂, hok₂, -, h2, -⟩ :=
    saveProfile_spec t₂ (saveProfile t₁ fs dir profileId u₁ c₁ d₁ l₁).2 dir
      profileId u₂ c₂ d₂ l₂ hid hc₂
  have hcAt : cAt₂ = cAt₁ := hok₂ _ hload₁
  refine ⟨_, _, h1, h2, ?_, rfl, rfl, rfl, rfl, rfl, rfl, rfl, rfl⟩
  exact hcAt

theorem createdAt_preservation_witness :
    profileIdTest "p" = true ∧ ([demoCookie].all isCookieJson) = true ∧
    (([] : List Json).all isCookieJson) = true ∧
    ∃ p₁ p₂ : Profile,
      (saveProfile "T1" ⟨[], []⟩ "d" "p" "u1" [demoCookie] none none).1 =
        .ok p₁ ∧
      (saveProfile "T2" (saveProfile "T1" ⟨[], []⟩ "d" "p" "u1" [demoCookie]
        none none).2 "d" "p" "u2" [] none none).1 = .ok p₂ ∧
      p₂.metadata.createdAt = p₁.metadata.createdAt ∧
      p₂.metadata.updatedAt = "T2" ∧
      p₂.metadata.cookieCount = 0 := by
  refine ⟨rfl, rfl, rfl, ?_⟩
  obtain ⟨p₁, p₂, h1, h2, h3, h4, h5, -⟩ :=
    createdAt_preservation "T1" "T2" ⟨[], []⟩ "d" "p" "u1" "u2" [demoCookie]
      [] none none none none rfl rfl rfl
  exact ⟨p₁, p₂, h1, h2, h3, h4, h5⟩

/-- C2 counterexample: with an empty file system, a valid id and a cookie
payload that fails the cookie schema, `saveProfile` rejects with the store
error `PROFILE_ERROR` (not `VALIDATION_ERROR`) and has already created the
profiles directory — I/O does happen before the rejection. -/
theorem saveProfile_io_counterexample :
    (∃ e : AppError,
      (saveProfile "T" ⟨[], []⟩ "d" "p" "u" [Json.num 0] none none).1 =
        .error e ∧ e.code = "PROFILE_ERROR" ∧ e.code ≠ "VALIDATION_ERROR") ∧
    (saveProfile "T" ⟨[], []⟩ "d" "p" "u" [Json.num 0] none none).2.dirs =
      ["d"] ∧
    (FS.mk [] []).dirs = ([] : List String) := by
  exact ⟨⟨⟨"PROFILE_ERROR"⟩, rfl, rfl, by decide⟩, rfl, rfl⟩

/-- C2 amended: on a schema-invalid cookie payload, `saveProfile` fails
with the store error `PROFILE_ERROR`; the only I/O performed before the
rejection is ensuring the profiles directory — no file is written and the
files on disk are unchanged. -/
theorem saveProfile_invalid_cookies_amended (now : String) (fs : FS)
    (dir profileId userId : String) (cookies : List Json)
    (description lastUrl : Option String)
    (hid : profileIdTest profileId = true)
    (hc : cookies.all isCookieJson = false) :
    saveProfile now fs dir profileId userId cookies description lastUrl =
      (.error ⟨"PROFILE_ERROR"⟩, ensureProfilesDir fs dir) ∧
    (ensureProfilesDir fs dir).files = fs.files := by
  constructor
  · simp [saveProfile, validateProfileId, hid, hc]
  · unfold ensureProfilesDir
    split <;> rfl

theorem saveProfile_invalid_cookies_amended_witness :
    profileIdTest "p" = true ∧ ([Json.num 0].all isCookieJson) = false ∧
    saveProfile "T" ⟨[], []⟩ "d" "p" "u" [Json.num 0] none none =
      (.error ⟨"PROFILE_ERROR"⟩, ensureProfilesDir ⟨[], []⟩ "d") := by
  refine ⟨rfl, rfl, ?_⟩
  exact (saveProfile_invalid_cookies_amended "T" ⟨[], []⟩ "d" "p" "u"
    [Json.num 0] none none rfl rfl).1

/-- C6: for a valid id, `loadProfile` fails with `PROFILE_NOT_FOUND`
exactly when the file is absent; unparseable content, schema-invalid
content, and an embedded id mismatch each fail with the distinct
corruption error `PROFILE_ERROR`; valid content is returned. -/
theorem loadProfile_error_taxonomy (fs : FS) (dir profileId : String)
    (hid : profileIdTest profileId = true) :
    (fsRead fs (profilePath dir profileId) = none ↔
      loadProfile fs dir profileId = .error ⟨"PROFILE_NOT_FOUND"⟩) ∧
    (fsRead fs (profilePath dir profileId) = some .invalid →
      loadProfile fs dir profileId = .error ⟨"PROFILE_ERROR"⟩) ∧
    (∀ j, fsRead fs (profilePath dir profileId) = some (.json j) →
      parseProfile j = none →
      loadProfile fs dir profileId = .error ⟨"PROFILE_ERROR"⟩) ∧
    (∀ j p, fsRead fs (profilePath dir profileId) = some (.json j) →
      parseProfile j = some p → p.profileId ≠ profileId →
      loadProfile fs dir profileId = .error ⟨"PROFILE_ERROR"⟩) ∧
    (∀ j p, fsRead fs (profilePath dir profileId) = some (.json j) →
      parseProfile j = some p → p.profileId = profileId →
      loadProfile fs dir profileId = .ok p) ∧
    (⟨"PROFILE_ERROR"⟩ : AppError) ≠ ⟨"PROFILE_NOT_FOUND"⟩ := by
  have hval : validateProfileId profileId = .ok () := by
    simp [validateProfileId, hid]
  refine ⟨⟨fun h => by simp [loadProfile, hval, h], fun h => ?_⟩,
    fun h => by simp [loadProfile, hval, h],
    fun j hj hp => by simp [loadProfile, hval, hj, hp],
    fun j p hj hp hne => by simp [loadProfile, hval, hj, hp, hne],
    fun j p hj hp he => by simp [loadProfile, hval, hj, hp, he],
    by decide⟩
  rcases hr : fsRead fs (profilePath dir profileId) with _ | fd
  · rfl
  · exfalso
    cases fd with
    | invalid => simp [loadProfile, hval, hr] at h
    | json j =>
        simp [loadProfile, hval, hr] at h
        rcases hp : parseProfile j with _ | p
        · simp [hp] at h
        · by_cases hpe : p.profileId = profileId <;> simp [hp, hpe] at h

theorem loadProfile_error_taxonomy_witness :
    profileIdTest "p" = true ∧
    fsRead ⟨[], []⟩ (profilePath "d" "p") = none ∧
    loadProfile ⟨[], []⟩ "d" "p" = .error ⟨"PROFILE_NOT_FOUND"⟩ := by
  refine ⟨rfl, rfl, ?_⟩
  exact (loadProfile_error_taxonomy ⟨[], []⟩ "d" "p" rfl).1.mp rfl

/-- A character accepted by neither regex character class poisons the whole
id: `validateProfileId` rejects any string containing it. -/
theorem validateProfileId_rejects_char (bad : Char)
    (h1 : isIdStart bad = false) (h2 : isIdCont bad = false) :
    ∀ s : String, bad ∈ s.data →
      validateProfileId s = .error ⟨"VALIDATION_ERROR"⟩ := by
  intro s hmem
  have htest : profileIdTest s = false := by
    unfold profileIdTest
    rcases hs : s.data with _ | ⟨c, rest⟩
    · rfl
    · rw [hs] at hmem
      rcases List.mem_cons.mp hmem with he | hmem2
      · subst he
        simp [h1]
      · have hall : rest.all isIdCont = false := by
          apply Bool.eq_false_iff.mpr
          intro hAll
          have := List.all_eq_true.mp hAll bad hmem2
          simp [h2] at this
        simp [hall]
  simp [validateProfileId, htest]

/-- C9: `validateProfileId` accepts exactly the strings of length 1 to 64
whose first character is alphanumeric or underscore and whose remaining
characters are alphanumeric, dot, hyphen or underscore; in particular
`"a"`, `"A0"` and `"x_y.z-9"` pass, while `""`, `"-bad"`, `".bad"`, every
65-character string, and every string containing `/` or a space fail with
the validation error. -/
theorem validateProfileId_spec :
    (∀ s : String, validateProfileId s = .ok () ↔
      (1 ≤ s.length ∧ s.length ≤ 64 ∧
        ∃ c rest, s.data = c :: rest ∧ isIdStart c = true ∧
          ∀ d ∈ rest, isIdCont d = true)) ∧
    validateProfileId "a" = .ok () ∧
    validateProfileId "A0" = .ok () ∧
    validateProfileId "x_y.z-9" = .ok () ∧
    validateProfileId "" = .error ⟨"VALIDATION_ERROR"⟩ ∧
    validateProfileId "-bad" = .error ⟨"VALIDATION_ERROR"⟩ ∧
    validateProfileId ".bad" = .error ⟨"VALIDATION_ERROR"⟩ ∧
    (∀ s : String, s.length = 65 →
      validateProfileId s = .error ⟨"VALIDATION_ERROR"⟩) ∧
    (∀ s : String, '/' ∈ s.data →
      validateProfileId s = .error ⟨"VALIDATION_ERROR"⟩) ∧
    (∀ s : String, ' ' ∈ s.data →
      validateProfileId s = .error ⟨"VALIDATION_ERROR"⟩) := by
  refine ⟨?_, rfl, rfl, rfl, rfl, rfl, rfl, ?_, ?_, ?_⟩
  · intro s
    have hlen : s.length = s.data.length := rfl
    constructor
    · intro h
      have htest : profileIdTest s = true := by
        by_cases ht : profileIdTest s
        · exact ht
        · simp [validateProfileId, ht] at h
      unfold profileIdTest at htest
      rcases hs : s.data with _ | ⟨c, rest⟩
      · rw [hs] at htest
        exact absurd htest (by simp)
      · rw [hs] at htest
        simp only [Bool.and_eq_true, decide_eq_true_eq,
          List.all_eq_true] at htest
        obtain ⟨⟨hstart, hlen63⟩, hall⟩ := htest
        refine ⟨?_, ?_, c, rest, rfl, hstart, hall⟩
        · rw [hlen, hs]
          simp
        · rw [hlen, hs]
          simp only [List.length_cons]
          omega
    · rintro ⟨h1, h64, c, rest, hs, hstart, hall⟩
      have htest : profileIdTest s = true := by
        unfold profileIdTest
        rw [hs]
        simp only [Bool.and_eq_true, decide_eq_true_eq, List.all_eq_true]
        refine ⟨⟨hstart, ?_⟩, hall⟩
        rw [hlen, hs] at h64
        simp only [List.length_cons] at h64
        omega
      simp [validateProfileId, htest]
  · intro s hlen65
    have htest : profileIdTest s = false := by
      unfold profileIdTest
      rcases hs : s.data with _ | ⟨c, rest⟩
      · rfl
      · have hr : rest.length = 64 := by
          have he : s.length = s.data.length := rfl
          rw [he, hs] at hlen65
          simp only [List.length_cons] at hlen65
          omega
        simp [hr]
    simp [validateProfileId, htest]
  · exact validateProfileId_rejects_char '/' (by decide) (by decide)
  · exact validateProfileId_rejects_char ' ' (by decide) (by decide)

theorem validateProfileId_spec_witness :
    ('/' ∈ "x/y".data) ∧
    validateProfileId "x/y" = .error ⟨"VALIDATION_ERROR"⟩ := by
  refine ⟨by decide, ?_⟩
  exact validateProfileId_spec.2.2.2.2.2.2.2.2.1 "x/y" (by decide)
